import Mathlib

/-!
Verification of `src/scripts/update-games.js` (zevnda/steam-game-database).

The script synchronises a local catalog of Steam app identifiers with the
remote `IStoreService/GetAppList` endpoint.  We give a shallow embedding of
its pure core — the pagination loop `fetchAllApps`, the merge step
`mergeApps`, the catalog loader `loadGamesData` and the orchestration
`updateGamesDatabase` — and prove the specification's claims about them.

External effects are made explicit:
* the remote endpoint is a list of per-request behaviours
  (`Option Response`, `none` modelling a transport/HTTP/parse failure);
* the outgoing query string of each request is recorded as a `Request`;
* file reads are inputs (`LoadInput`, `Option Metadata`) and file writes are
  recorded in the run outcome (`WriteOp` list, backup-copy list).

JavaScript integers are modelled as `Int`; fields that may be absent in the
JSON response (`apps`, `have_more_results`, `last_appid`) are `Option`s, and
the JS coercions `x || false` / `x || 0` become `Option.getD`.
-/

/-- A record returned by the endpoint.  Only `appid` is ever read
(auxiliary fields are dropped by the merge step). -/
structure App where
  appid : Int
deriving DecidableEq, Repr

/-- The `response` object of one page:
`apps` (may be absent), `have_more_results` (may be absent),
`last_appid` (may be absent). -/
structure Response where
  apps : Option (List App)
  have_more_results : Option Bool
  last_appid : Option Int
deriving DecidableEq, Repr

/-- The query parameters of one outgoing request, as built by the
`URLSearchParams` block of `fetchAllApps` (src lines 90-105).  The constant
parameters are fixed; `last_appid` and `if_modified_since` are appended
conditionally. -/
structure Request where
  max_results : Nat
  include_dlc : Bool
  include_software : Bool
  include_videos : Bool
  include_hardware : Bool
  last_appid : Option Int
  if_modified_since : Option Int
deriving DecidableEq, Repr

/-- Build the request of one loop iteration: the constant parameters, plus
`last_appid` exactly when `lastAppId > 0` (line 99) and `if_modified_since`
exactly when `ifModifiedSince > 0` (line 103). -/
def mkRequest (lastAppId ifModifiedSince : Int) : Request :=
  { max_results := 50000
    include_dlc := false
    include_software := false
    include_videos := false
    include_hardware := false
    last_appid := if lastAppId > 0 then some lastAppId else none
    if_modified_since := if ifModifiedSince > 0 then some ifModifiedSince else none }

/-- The `while (hasMore)` loop of `fetchAllApps` (src lines 87-138).
Each iteration issues one request; the endpoint's behaviour for the
successive requests is the list `resps`.  A `none` behaviour (or an
exhausted list) models a failed page request: the `try`/`catch` rethrows, so
the loop returns no result (`none`) and issues no further request.
Otherwise the page's `apps` are appended to the accumulator
(`responseData.apps && responseData.apps.length > 0` — appending `[]` when
absent is the same), `hasMore := have_more_results || false` and
`lastAppId := last_appid || 0` are updated, and the loop continues iff
`hasMore`. -/
def fetchLoop (ifModifiedSince : Int) :
    List (Option Response) → Int → List App → List Request →
    Option (List App) × List Request
  | [], lastAppId, _, reqs =>
      (none, reqs ++ [mkRequest lastAppId ifModifiedSince])
  | none :: _, lastAppId, _, reqs =>
      (none, reqs ++ [mkRequest lastAppId ifModifiedSince])
  | some r :: rest, lastAppId, acc, reqs =>
      let acc' := acc ++ r.apps.getD []
      let hasMore := r.have_more_results.getD false
      let nextId := r.last_appid.getD 0
      if hasMore then
        fetchLoop ifModifiedSince rest nextId acc'
          (reqs ++ [mkRequest lastAppId ifModifiedSince])
      else
        (some acc', reqs ++ [mkRequest lastAppId ifModifiedSince])

/-- `fetchAllApps(ifModifiedSince)` (src lines 79-142): run the page loop
starting from cursor `0` with an empty accumulator.  Returns the
accumulated apps (`none` on a failed page) and the requests issued. -/
def fetchAllApps (ifModifiedSince : Int) (resps : List (Option Response)) :
    Option (List App) × List Request :=
  fetchLoop ifModifiedSince resps 0 [] []

/-- The `for (const app of newApps)` loop of `mergeApps` (src lines 149-155).
State: the growable catalog `games` (JS array `existingGames`), the
membership structure `seen` (JS `Set`, membership only) and the running
`addedCount`.  An unseen `appid` is pushed onto both. -/
def mergeLoop : List Int → List Int → Nat → List App → List Int × List Int × Nat
  | games, seen, count, [] => (games, seen, count)
  | games, seen, count, a :: rest =>
      if a.appid ∈ seen then mergeLoop games seen count rest
      else mergeLoop (games ++ [a.appid]) (a.appid :: seen) (count + 1) rest

/-- `mergeApps(existingGames, newApps)` (src lines 145-161): initialise the
`Set` from the existing catalog, run the loop, then
`existingGames.sort((a, b) => a - b)` — a numeric ascending sort.  Returns
the final catalog and `addedCount`. -/
def mergeApps (existingGames : List Int) (newApps : List App) : List Int × Nat :=
  let res := mergeLoop existingGames existingGames 0 newApps
  (List.insertionSort (· ≤ ·) res.1, res.2.2)

/-- What `JSON.parse` of the games file yields when it succeeds: a JSON
array of integers, or some non-array value (`Array.isArray` check,
src line 32). -/
inductive JsonVal where
  | arr (l : List Int)
  | other
deriving DecidableEq, Repr

/-- The state of the games file as seen by `loadGamesData`:
absent (`existsSync` false), blank after stripping a BOM
(`!cleanData.trim()`), successfully parsed, or unparsable
(`JSON.parse` throws). -/
inductive LoadInput where
  | missing
  | blank
  | parsed (v : JsonVal)
  | unparsable
deriving DecidableEq, Repr

/-- The games-file path (src line 4); modelled by its base name. -/
def GAMES_FILE : String := "games.json"

/-- The backup path built in the catch branch (src line 43):
`GAMES_FILE.replace('.json', '.backup.' + Date.now() + '.json')`,
with `now` the current epoch milliseconds. -/
def backupFile (now : Nat) : String :=
  GAMES_FILE.replace ".json" (".backup." ++ toString now ++ ".json")

/-- `loadGamesData()` (src lines 14-52).  Returns the in-memory catalog and
the list of backup copies made.  A missing file, blank content or a
non-array value yields an empty catalog with no backup; an unparsable file
hits the catch branch, which copies the (existing) file to the timestamped
backup path and returns an empty catalog.  The function always returns —
it never rethrows. -/
def loadGamesData : LoadInput → Nat → List Int × List String
  | .missing, _ => ([], [])
  | .blank, _ => ([], [])
  | .parsed (.arr l), _ => (l, [])
  | .parsed .other, _ => ([], [])
  | .unparsable, now => ([], [backupFile now])

/-- The `lastRunStats` object written on an update (src lines 190-193). -/
structure RunStats where
  appsReceived : Nat
  gamesAdded : Nat
deriving DecidableEq, Repr

/-- The metadata object (src lines 60-64 defaults; fields written at
lines 187-193). -/
structure Metadata where
  lastFetchTimestamp : Int
  lastUpdateDate : Option String
  totalGames : Nat
  lastRunStats : Option RunStats
deriving DecidableEq, Repr

/-- `loadMetadata()` (src lines 55-65): the parsed metadata file when it
exists, else the defaults. -/
def loadMetadata : Option Metadata → Metadata
  | some m => m
  | none =>
      { lastFetchTimestamp := 0
        lastUpdateDate := none
        totalGames := 0
        lastRunStats := none }

/-- One `fs.writeFileSync` performed by the run: the catalog file
(`saveGamesData`, src line 69) or the metadata file (`saveMetadata`,
src line 75). -/
inductive WriteOp where
  | writeGames (games : List Int)
  | writeMetadata (m : Metadata)
deriving DecidableEq, Repr

/-- The observable outcome of one run: the writes to the two persisted
files in order, the backup copies made while loading, and the process exit
code (`0` on success, `1` from the catch branch at src line 204). -/
structure RunOutcome where
  writes : List WriteOp
  backups : List String
  exitCode : Nat
deriving DecidableEq, Repr

/-- `updateGamesDatabase()` (src lines 163-206).  Inputs are the games-file
state, the current epoch milliseconds used for a backup name, the metadata
file, the endpoint behaviour, and the completion time (`Date.now()/1000`
floor, and its ISO string).  Load both files, fetch with the stored
watermark; a fetch failure propagates to the catch branch (exit 1, no
writes).  Zero records: log and write nothing.  Otherwise merge, write the
catalog file, update the metadata fields and write the metadata file. -/
def updateGamesDatabase (input : LoadInput) (backupNow : Nat)
    (metaFile : Option Metadata) (resps : List (Option Response))
    (now : Int) (nowIso : String) : RunOutcome :=
  let loaded := loadGamesData input backupNow
  let games := loaded.1
  let metadata := loadMetadata metaFile
  match (fetchAllApps metadata.lastFetchTimestamp resps).1 with
  | none => { writes := [], backups := loaded.2, exitCode := 1 }
  | some newApps =>
      if newApps.length = 0 then
        { writes := [], backups := loaded.2, exitCode := 0 }
      else
        let merged := mergeApps games newApps
        let metadata' : Metadata :=
          { lastFetchTimestamp := now
            lastUpdateDate := some nowIso
            totalGames := merged.1.length
            lastRunStats := some ⟨newApps.length, merged.2⟩ }
        { writes := [.writeGames merged.1, .writeMetadata metadata']
          backups := loaded.2
          exitCode := 0 }

/-! ### Helper lemmas about the merge loop -/

/-- Each loop iteration that inserts bumps the catalog length and the
counter together. -/
theorem mergeLoop_length (apps : List App) :
    ∀ (games seen : List Int) (count : Nat),
      (mergeLoop games seen count apps).1.length + count
        = games.length + (mergeLoop games seen count apps).2.2 := by
  induction apps with
  | nil => intro games seen count; simp [mergeLoop]
  | cons a rest ih =>
      intro games seen count
      by_cases h : a.appid ∈ seen
      · simpa [mergeLoop, h] using ih games seen count
      · have := ih (games ++ [a.appid]) (a.appid :: seen) (count + 1)
        simp only [mergeLoop, if_neg h] at *
        simp at this
        omega

/-- Membership in the catalog built by the loop, assuming the membership
structure agrees with the catalog (as it does initially). -/
theorem mergeLoop_mem (apps : List App) :
    ∀ (games seen : List Int) (count : Nat),
      (∀ x : Int, x ∈ seen ↔ x ∈ games) →
      ∀ x : Int, x ∈ (mergeLoop games seen count apps).1
        ↔ x ∈ games ∨ x ∈ apps.map App.appid := by
  induction apps with
  | nil => intro games seen count _ x; simp [mergeLoop]
  | cons a rest ih =>
      intro games seen count hinv x
      by_cases h : a.appid ∈ seen
      · have hg : a.appid ∈ games := (hinv _).mp h
        rw [mergeLoop, if_pos h, ih games seen count hinv x]
        simp only [List.map_cons, List.mem_cons]
        constructor
        · rintro (hx | hx)
          · exact Or.inl hx
          · exact Or.inr (Or.inr hx)
        · rintro (hx | rfl | hx)
          · exact Or.inl hx
          · exact Or.inl hg
          · exact Or.inr hx
      · have hinv' : ∀ y : Int, y ∈ a.appid :: seen ↔ y ∈ games ++ [a.appid] := by
          intro y
          simp [hinv y, or_comm]
        rw [mergeLoop, if_neg h, ih _ _ _ hinv' x]
        simp only [List.mem_append, List.mem_singleton, List.map_cons, List.mem_cons]
        tauto

/-- The loop preserves freedom from duplicates, assuming the membership
structure agrees with the catalog. -/
theorem mergeLoop_nodup (apps : List App) :
    ∀ (games seen : List Int) (count : Nat),
      (∀ x : Int, x ∈ seen ↔ x ∈ games) → games.Nodup →
      (mergeLoop games seen count apps).1.Nodup := by
  induction apps with
  | nil => intro games seen count _ hnd; simpa [mergeLoop] using hnd
  | cons a rest ih =>
      intro games seen count hinv hnd
      by_cases h : a.appid ∈ seen
      · rw [mergeLoop, if_pos h]
        exact ih games seen count hinv hnd
      · have hinv' : ∀ y : Int, y ∈ a.appid :: seen ↔ y ∈ games ++ [a.appid] := by
          intro y
          simp [hinv y, or_comm]
        rw [mergeLoop, if_neg h]
        refine ih _ _ _ hinv' ?_
        have hng : a.appid ∉ games := fun hg => h ((hinv _).mpr hg)
        simp [List.nodup_append, hnd, hng]

/-- A loop whose every record is already in the membership structure does
nothing. -/
theorem mergeLoop_noop (apps : List App) (games seen : List Int) (count : Nat)
    (h : ∀ a ∈ apps, a.appid ∈ seen) :
    mergeLoop games seen count apps = (games, seen, count) := by
  induction apps with
  | nil => rfl
  | cons a rest ih =>
      rw [mergeLoop, if_pos (h a (by simp))]
      exact ih fun b hb => h b (List.mem_cons_of_mem _ hb)

/-- Membership in the merged catalog: the union of the previous catalog
and the records' identifiers. -/
theorem mergeApps_mem (c : List Int) (apps : List App) (x : Int) :
    x ∈ (mergeApps c apps).1 ↔ x ∈ c ∨ x ∈ apps.map App.appid := by
  unfold mergeApps
  rw [List.mem_insertionSort]
  exact mergeLoop_mem apps c c 0 (fun _ => Iff.rfl) x

/-- The merged catalog is sorted (helper form). -/
theorem mergeApps_sorted_aux (c : List Int) (apps : List App) :
    List.Sorted (· ≤ ·) (mergeApps c apps).1 :=
  List.sorted_insertionSort _ _

/-! ### Claims about the merge step -/

/-- C4:  For every input catalog and every record sequence, the catalog
produced by merge is sorted ascending by numeric value. -/
theorem mergeApps_sorted (c : List Int) (apps : List App) :
    List.Sorted (· ≤ ·) (mergeApps c apps).1 :=
  mergeApps_sorted_aux c apps

/-- C2 fails as stated: the claim ranges over input catalogs that
already contain duplicates, but `mergeApps` only deduplicates the incoming
records against the `Set` — duplicates already in the catalog survive.  On
the catalog `[1, 1]` with no records, the merged catalog is `[1, 1]`. -/
theorem mergeApps_dup_counterexample :
    (mergeApps [1, 1] []).1 = [1, 1] ∧ ¬ (mergeApps [1, 1] []).1.Nodup := by
  decide

/-- C2 (amended): for every input catalog that itself contains no
duplicate identifiers, and every record sequence, the catalog produced by
merge contains no duplicate identifiers. -/
theorem mergeApps_nodup_of_nodup (c : List Int) (apps : List App)
    (h : c.Nodup) : (mergeApps c apps).1.Nodup := by
  unfold mergeApps
  exact ((List.perm_insertionSort _ _).nodup_iff).mpr
    (mergeLoop_nodup apps c c 0 (fun _ => Iff.rfl) h)

/-- Witness for the amended claim C2: catalog `[5, 10]`, records `[{5}]`. -/
theorem mergeApps_nodup_witness :
    ([5, 10] : List Int).Nodup ∧ (mergeApps [5, 10] [⟨5⟩]).1.Nodup :=
  ⟨by decide, mergeApps_nodup_of_nodup [5, 10] [⟨5⟩] (by decide)⟩

/-- C3:  Running merge a second time with the same record sequence, on
the catalog resulting from the first merge, leaves the catalog unchanged
and returns an added count of 0. -/
theorem mergeApps_idempotent (c : List Int) (apps : List App) :
    mergeApps (mergeApps c apps).1 apps = ((mergeApps c apps).1, 0) := by
  set m := (mergeApps c apps).1
  have habs : ∀ a ∈ apps, a.appid ∈ m := fun a ha =>
    (mergeApps_mem c apps a.appid).mpr (Or.inr (List.mem_map_of_mem _ ha))
  have hloop : mergeLoop m m 0 apps = (m, m, 0) := mergeLoop_noop apps m m 0 habs
  have hsorted : List.Sorted (· ≤ ·) m := mergeApps_sorted_aux c apps
  show (List.insertionSort (· ≤ ·) (mergeLoop m m 0 apps).1,
      (mergeLoop m m 0 apps).2.2) = (m, 0)
  rw [hloop]
  simp [hsorted.insertionSort_eq]

/-- C5:  Merge on the empty catalog with records `[{10},{5},{10}]`
yields catalog `[5, 10]` and added count 2; merge on `[5, 10]` with the
single record `{5}` yields catalog `[5, 10]` and added count 0. -/
theorem mergeApps_examples :
    mergeApps [] [⟨10⟩, ⟨5⟩, ⟨10⟩] = ([5, 10], 2) ∧
    mergeApps [5, 10] [⟨5⟩] = ([5, 10], 0) := by
  decide

/-- C10:  The added count equals the merged catalog's length minus the
input catalog's length (and the length never decreases), and membership in
the merged catalog is exactly membership in the input catalog or among the
records' identifiers — merge never removes an identifier that was present. -/
theorem mergeApps_count_union (c : List Int) (apps : List App) :
    (mergeApps c apps).2 = (mergeApps c apps).1.length - c.length ∧
    c.length ≤ (mergeApps c apps).1.length ∧
    (∀ x : Int, x ∈ (mergeApps c apps).1 ↔ x ∈ c ∨ x ∈ apps.map App.appid) := by
  have hlen := mergeLoop_length apps c c 0
  have hcount : (mergeApps c apps).2 = (mergeLoop c c 0 apps).2.2 := rfl
  have hsortlen : (mergeApps c apps).1.length = (mergeLoop c c 0 apps).1.length := by
    show (List.insertionSort (· ≤ ·) (mergeLoop c c 0 apps).1).length = _
    exact (List.perm_insertionSort _ _).length_eq
  refine ⟨?_, ?_, mergeApps_mem c apps⟩
  · rw [hcount, hsortlen]
    omega
  · rw [hsortlen]
    omega

/-! ### Helper lemmas about the pagination loop -/

/-- The requests issued by the page loop, as a function of the incoming
cursor and the remaining endpoint behaviours: one request per iteration,
stopping after a failed page or a page without `have_more_results`. -/
def requestsOf (ifModifiedSince : Int) : Int → List (Option Response) → List Request
  | lastAppId, [] => [mkRequest lastAppId ifModifiedSince]
  | lastAppId, none :: _ => [mkRequest lastAppId ifModifiedSince]
  | lastAppId, some r :: rest =>
      mkRequest lastAppId ifModifiedSince ::
        (if r.have_more_results.getD false then
          requestsOf ifModifiedSince (r.last_appid.getD 0) rest
        else [])

/-- The record accumulator computed by the page loop: `none` as soon as a
page fails (or the behaviour list is exhausted while more pages remain). -/
def resultOf (ifModifiedSince : Int) : Int → List App → List (Option Response) → Option (List App)
  | _, _, [] => none
  | _, _, none :: _ => none
  | lastAppId, acc, some r :: rest =>
      if r.have_more_results.getD false then
        resultOf ifModifiedSince (r.last_appid.getD 0) (acc ++ r.apps.getD []) rest
      else some (acc ++ r.apps.getD [])

/-- `fetchLoop` computes exactly `resultOf` and appends exactly
`requestsOf` to the request log. -/
theorem fetchLoop_eq (w : Int) (resps : List (Option Response)) :
    ∀ (lastAppId : Int) (acc : List App) (reqs : List Request),
      fetchLoop w resps lastAppId acc reqs
        = (resultOf w lastAppId acc resps, reqs ++ requestsOf w lastAppId resps) := by
  induction resps with
  | nil => intro la acc reqs; rfl
  | cons o rest ih =>
      intro la acc reqs
      cases o with
      | none => rfl
      | some r =>
          simp only [fetchLoop, resultOf, requestsOf]
          cases hb : r.have_more_results.getD false with
          | false => simp [hb]
          | true => simp [hb, ih]

/-- `fetchAllApps` in terms of the two characterising functions. -/
theorem fetchAllApps_eq (w : Int) (resps : List (Option Response)) :
    fetchAllApps w resps = (resultOf w 0 [] resps, requestsOf w 0 resps) := by
  rw [fetchAllApps, fetchLoop_eq]
  simp

/-- Every request the loop issues carries `if_modified_since` exactly when
the watermark is positive. -/
theorem requestsOf_ims (w : Int) (resps : List (Option Response)) :
    ∀ (la : Int), ∀ req ∈ requestsOf w la resps,
      req.if_modified_since = if w > 0 then some w else none := by
  induction resps with
  | nil =>
      intro la req h
      rw [requestsOf, List.mem_singleton] at h
      subst h; rfl
  | cons o rest ih =>
      intro la req h
      cases o with
      | none =>
          rw [requestsOf, List.mem_singleton] at h
          subst h; rfl
      | some r =>
          rw [requestsOf, List.mem_cons] at h
          rcases h with h | h
          · subst h; rfl
          · by_cases hb : r.have_more_results.getD false = true
            · rw [if_pos hb] at h
              exact ih _ req h
            · rw [if_neg hb] at h
              simp at h

/-- The first request the loop issues carries the incoming cursor. -/
theorem requestsOf_get_zero (w la : Int) (resps : List (Option Response)) :
    (requestsOf w la resps).get? 0 = some (mkRequest la w) := by
  cases resps with
  | nil => rfl
  | cons o rest =>
      cases o with
      | none => rfl
      | some r => rfl

/-- Every request after the first exists only because the prior page
succeeded, and carries the `last_appid` parameter exactly when that page's
(coerced) cursor is nonzero — given that the endpoint only hands out
nonnegative cursors. -/
theorem requestsOf_cursor (w : Int) (resps : List (Option Response)) :
    ∀ (la : Int),
      (∀ o ∈ resps, 0 ≤ (o.map fun x => x.last_appid.getD 0).getD 0) →
      ∀ (i : Nat) (req : Request),
        (requestsOf w la resps).get? (i + 1) = some req →
        ∃ r, resps.get? i = some (some r) ∧
          (req.last_appid ≠ none ↔ r.last_appid.getD 0 ≠ 0) := by
  induction resps with
  | nil =>
      intro la _ i req h
      rw [requestsOf] at h
      simp at h
  | cons o rest ih =>
      intro la hc i req h
      cases o with
      | none =>
          rw [requestsOf] at h
          simp at h
      | some r =>
          rw [requestsOf, List.get?_cons_succ] at h
          by_cases hb : r.have_more_results.getD false = true
          · rw [if_pos hb] at h
            cases i with
            | zero =>
                rw [requestsOf_get_zero] at h
                cases h
                refine ⟨r, rfl, ?_⟩
                have hge : 0 ≤ r.last_appid.getD 0 := by
                  have := hc (some r) (List.mem_cons_self _ _)
                  simpa using this
                by_cases hp : r.last_appid.getD 0 > 0
                · simp only [mkRequest, if_pos hp]
                  constructor
                  · intro _; omega
                  · intro _; simp
                · simp only [mkRequest, if_neg hp]
                  constructor
                  · intro hcon; exact absurd rfl hcon
                  · intro hne; omega
            | succ i =>
                have hc' : ∀ o ∈ rest, 0 ≤ (o.map fun x => x.last_appid.getD 0).getD 0 :=
                  fun o ho => hc o (List.mem_cons_of_mem _ ho)
                obtain ⟨r', hr', hiff⟩ := ih _ hc' i req h
                exact ⟨r', by rw [List.get?_cons_succ]; exact hr', hiff⟩
          · rw [if_neg hb] at h
            simp at h

/-! ### Claims about the pagination loop -/

/-- C6:  Given a nonnegative watermark and an endpoint handing out only
nonnegative cursors: every outgoing request of `fetchAllApps` carries the
`if_modified_since` parameter exactly when the watermark argument is
nonzero; the first request of a run never carries the `last_appid` cursor
parameter; and every later request carries the cursor parameter exactly
when the cursor taken from the prior response (`last_appid || 0`) is
nonzero. -/
theorem fetchAllApps_request_params (w : Int) (hw : 0 ≤ w)
    (resps : List (Option Response))
    (hc : ∀ o ∈ resps, 0 ≤ (o.map fun x => x.last_appid.getD 0).getD 0) :
    (∀ req ∈ (fetchAllApps w resps).2, req.if_modified_since ≠ none ↔ w ≠ 0) ∧
    (∀ req, (fetchAllApps w resps).2.get? 0 = some req → req.last_appid = none) ∧
    (∀ (i : Nat) (req : Request),
      (fetchAllApps w resps).2.get? (i + 1) = some req →
      ∃ r, resps.get? i = some (some r) ∧
        (req.last_appid ≠ none ↔ r.last_appid.getD 0 ≠ 0)) := by
  rw [fetchAllApps_eq]
  refine ⟨?_, ?_, ?_⟩
  · intro req hreq
    rw [requestsOf_ims w resps 0 req hreq]
    by_cases hp : w > 0
    · simp only [if_pos hp]
      constructor
      · intro _; omega
      · intro _; simp
    · simp only [if_neg hp]
      constructor
      · intro hcon; exact absurd rfl hcon
      · intro hne; omega
  · intro req hreq
    rw [requestsOf_get_zero] at hreq
    cases hreq
    rfl
  · exact requestsOf_cursor w resps 0 hc

/-- Witness for claim C6: watermark 5, a first page with cursor 3 and more
pages, then a terminal page. -/
theorem fetchAllApps_request_params_witness :
    (∀ req ∈ (fetchAllApps 5 [some ⟨some [⟨7⟩], some true, some 3⟩,
        some ⟨none, none, none⟩]).2, req.if_modified_since ≠ none ↔ (5 : Int) ≠ 0) ∧
    (∀ req, (fetchAllApps 5 [some ⟨some [⟨7⟩], some true, some 3⟩,
        some ⟨none, none, none⟩]).2.get? 0 = some req → req.last_appid = none) ∧
    (∀ (i : Nat) (req : Request),
      (fetchAllApps 5 [some ⟨some [⟨7⟩], some true, some 3⟩,
        some ⟨none, none, none⟩]).2.get? (i + 1) = some req →
      ∃ r, ([some ⟨some [⟨7⟩], some true, some 3⟩,
          some ⟨none, none, none⟩] : List (Option Response)).get? i = some (some r) ∧
        (req.last_appid ≠ none ↔ r.last_appid.getD 0 ≠ 0)) :=
  fetchAllApps_request_params 5 (by decide)
    [some ⟨some [⟨7⟩], some true, some 3⟩, some ⟨none, none, none⟩] (by decide)

/-- On a behaviour list of successful pages whose every non-final page
signals more results and whose final page does not, the loop accumulates
the concatenation of all pages' records. -/
theorem resultOf_pages (w : Int) :
    ∀ (pages : List Response) (la : Int) (acc : List App),
      pages ≠ [] →
      (∀ i r, i + 1 < pages.length → pages.get? i = some r →
        r.have_more_results.getD false = true) →
      (∀ r, pages.getLast? = some r → r.have_more_results.getD false = false) →
      resultOf w la acc (pages.map some)
        = some (acc ++ (pages.map fun r => r.apps.getD []).flatten) := by
  intro pages
  induction pages with
  | nil => intro la acc h; exact absurd rfl h
  | cons a rest ih =>
      intro la acc _ hmore hlast
      cases rest with
      | nil =>
          have hf : a.have_more_results.getD false = false := hlast a rfl
          simp [resultOf, hf]
      | cons b rest' =>
          have hf : a.have_more_results.getD false = true := by
            refine hmore 0 a ?_ rfl
            simp
          have hmore' : ∀ i r, i + 1 < (b :: rest').length →
              (b :: rest').get? i = some r → r.have_more_results.getD false = true := by
            intro i r hi hr
            refine hmore (i + 1) r ?_ ?_
            · simpa [Nat.succ_lt_succ_iff] using hi
            · rw [List.get?_cons_succ]
              exact hr
          have hlast' : ∀ r, (b :: rest').getLast? = some r →
              r.have_more_results.getD false = false := by
            intro r hr
            exact hlast r (by rw [List.getLast?_cons_cons]; exact hr)
          rw [List.map_cons, resultOf, if_pos hf,
            ih (a.last_appid.getD 0) (acc ++ a.apps.getD []) (by simp) hmore' hlast']
          simp [List.flatten_cons]

/-- On the same behaviour lists, the loop issues exactly one request per
page. -/
theorem requestsOf_pages_length (w : Int) :
    ∀ (pages : List Response) (la : Int),
      pages ≠ [] →
      (∀ i r, i + 1 < pages.length → pages.get? i = some r →
        r.have_more_results.getD false = true) →
      (∀ r, pages.getLast? = some r → r.have_more_results.getD false = false) →
      (requestsOf w la (pages.map some)).length = pages.length := by
  intro pages
  induction pages with
  | nil => intro la h; exact absurd rfl h
  | cons a rest ih =>
      intro la _ hmore hlast
      cases rest with
      | nil =>
          have hf : a.have_more_results.getD false = false := hlast a rfl
          simp [requestsOf, hf]
      | cons b rest' =>
          have hf : a.have_more_results.getD false = true := by
            refine hmore 0 a ?_ rfl
            simp
          have hmore' : ∀ i r, i + 1 < (b :: rest').length →
              (b :: rest').get? i = some r → r.have_more_results.getD false = true := by
            intro i r hi hr
            refine hmore (i + 1) r ?_ ?_
            · simpa [Nat.succ_lt_succ_iff] using hi
            · rw [List.get?_cons_succ]
              exact hr
          have hlast' : ∀ r, (b :: rest').getLast? = some r →
              r.have_more_results.getD false = false := by
            intro r hr
            exact hlast r (by rw [List.getLast?_cons_cons]; exact hr)
          rw [List.map_cons, requestsOf, if_pos hf, List.length_cons,
            ih (a.last_appid.getD 0) (by simp) hmore' hlast']
          rfl

/-- C1:  For a page sequence of length `k + 1` in which every page
before the last reports more pages remain and page `k + 1` reports false
(or omits the flag), `fetchAllApps` terminates after requesting exactly
`k + 1` pages and returns the concatenation, in the order received, of the
records of all `k + 1` pages. -/
theorem fetchAllApps_pagination (w : Int) (k : Nat) (pages : List Response)
    (hlen : pages.length = k + 1)
    (hmore : ∀ i r, i < k → pages.get? i = some r →
      r.have_more_results.getD false = true)
    (hlast : ∀ r, pages.get? k = some r → r.have_more_results.getD false = false) :
    (fetchAllApps w (pages.map some)).1
        = some ((pages.map fun r => r.apps.getD []).flatten) ∧
    (fetchAllApps w (pages.map some)).2.length = k + 1 := by
  have hne : pages ≠ [] := by
    intro h
    rw [h] at hlen
    simp at hlen
  have hmore' : ∀ i r, i + 1 < pages.length → pages.get? i = some r →
      r.have_more_results.getD false = true := by
    intro i r hi hr
    exact hmore i r (by omega) hr
  have hlast' : ∀ r, pages.getLast? = some r →
      r.have_more_results.getD false = false := by
    intro r hr
    rw [List.getLast?_eq_get? pages, hlen, Nat.add_sub_cancel] at hr
    exact hlast r hr
  rw [fetchAllApps_eq]
  constructor
  · simpa using resultOf_pages w pages 0 [] hne hmore' hlast'
  · rw [requestsOf_pages_length w pages 0 hne hmore' hlast', hlen]

/-- Witness for claim C1: two pages, the first with records `1, 2` and more
results, the second with record `3` and no flag. -/
theorem fetchAllApps_pagination_witness :
    (fetchAllApps 0 (([⟨some [⟨1⟩, ⟨2⟩], some true, some 2⟩,
        ⟨some [⟨3⟩], none, none⟩] : List Response).map some)).1
        = some ((([⟨some [⟨1⟩, ⟨2⟩], some true, some 2⟩,
            ⟨some [⟨3⟩], none, none⟩] : List Response).map fun r => r.apps.getD []).flatten) ∧
    (fetchAllApps 0 (([⟨some [⟨1⟩, ⟨2⟩], some true, some 2⟩,
        ⟨some [⟨3⟩], none, none⟩] : List Response).map some)).2.length = 1 + 1 := by
  refine fetchAllApps_pagination 0 1
    [⟨some [⟨1⟩, ⟨2⟩], some true, some 2⟩, ⟨some [⟨3⟩], none, none⟩] rfl ?_ ?_
  · intro i r hi hr
    have hz : i = 0 := by omega
    subst hz
    injection hr with h
    subst h
    rfl
  · intro r hr
    injection hr with h
    subst h
    rfl

/-! ### Claims about the run orchestration -/

/-- If every page before some point succeeds with more results pending and
the next page request fails, the loop yields no result. -/
theorem resultOf_fail (w : Int) (good : List (Option Response)) :
    ∀ (rest : List (Option Response)) (la : Int) (acc : List App),
      (∀ o ∈ good, (o.map fun x => x.have_more_results.getD false).getD false = true) →
      resultOf w la acc (good ++ none :: rest) = none := by
  induction good with
  | nil => intro rest la acc _; rfl
  | cons o good' ih =>
      intro rest la acc hg
      cases o with
      | none =>
          have := hg none (List.mem_cons_self _ _)
          simp at this
      | some r =>
          have hf : r.have_more_results.getD false = true := by
            have := hg (some r) (List.mem_cons_self _ _)
            simpa using this
          rw [List.cons_append, resultOf, if_pos hf]
          exact ih rest _ _ fun o ho => hg o (List.mem_cons_of_mem _ ho)

/-- In the same situation the loop stops right after the failing request:
one request per successful page plus the failing one, none for the pages
behind the failure. -/
theorem requestsOf_fail_length (w : Int) (good : List (Option Response)) :
    ∀ (rest : List (Option Response)) (la : Int),
      (∀ o ∈ good, (o.map fun x => x.have_more_results.getD false).getD false = true) →
      (requestsOf w la (good ++ none :: rest)).length = good.length + 1 := by
  induction good with
  | nil => intro rest la _; rfl
  | cons o good' ih =>
      intro rest la hg
      cases o with
      | none =>
          have := hg none (List.mem_cons_self _ _)
          simp at this
      | some r =>
          have hf : r.have_more_results.getD false = true := by
            have := hg (some r) (List.mem_cons_self _ _)
            simpa using this
          rw [List.cons_append, requestsOf, if_pos hf, List.length_cons,
            ih rest _ fun o ho => hg o (List.mem_cons_of_mem _ ho)]
          rfl

/-- C7:  Whenever the fetch returns zero records, the run writes neither
the catalog file nor the metadata file and exits successfully (the
in-memory catalog and metadata values are never reassigned in this branch,
so persisted and in-memory state are unchanged by the run). -/
theorem run_noop_preserves_files (input : LoadInput) (backupNow : Nat)
    (metaFile : Option Metadata) (resps : List (Option Response))
    (now : Int) (nowIso : String)
    (h : (fetchAllApps (loadMetadata metaFile).lastFetchTimestamp resps).1 = some []) :
    (updateGamesDatabase input backupNow metaFile resps now nowIso).writes = [] ∧
    (updateGamesDatabase input backupNow metaFile resps now nowIso).exitCode = 0 := by
  constructor <;>
  · simp only [updateGamesDatabase]
    rw [h]
    rfl

/-- Witness for claim C7: an endpoint whose single page carries no records. -/
theorem run_noop_preserves_files_witness :
    (updateGamesDatabase .missing 0 none [some ⟨none, none, none⟩] 0 "").writes = [] ∧
    (updateGamesDatabase .missing 0 none [some ⟨none, none, none⟩] 0 "").exitCode = 0 :=
  run_noop_preserves_files .missing 0 none [some ⟨none, none, none⟩] 0 "" (by decide)

/-- C8:  If any page request fails (a `none` behaviour — transport
error, non-success HTTP status or malformed body), the fetch aborts with no
result, issues no request beyond the failing one (no retry, later pages
never requested), and the run writes neither file and exits nonzero, so
persisted state is unchanged on any fetch error. -/
theorem fetch_error_aborts_run (input : LoadInput) (backupNow : Nat)
    (metaFile : Option Metadata) (good rest : List (Option Response))
    (now : Int) (nowIso : String)
    (hgood : ∀ o ∈ good, (o.map fun x => x.have_more_results.getD false).getD false = true) :
    (fetchAllApps (loadMetadata metaFile).lastFetchTimestamp (good ++ none :: rest)).1 = none ∧
    (fetchAllApps (loadMetadata metaFile).lastFetchTimestamp (good ++ none :: rest)).2.length
      = good.length + 1 ∧
    (updateGamesDatabase input backupNow metaFile (good ++ none :: rest) now nowIso).writes
      = [] ∧
    (updateGamesDatabase input backupNow metaFile (good ++ none :: rest) now nowIso).exitCode
      = 1 := by
  have h1 : (fetchAllApps (loadMetadata metaFile).lastFetchTimestamp
      (good ++ none :: rest)).1 = none := by
    rw [fetchAllApps_eq]
    exact resultOf_fail _ good rest 0 [] hgood
  refine ⟨h1, ?_, ?_, ?_⟩
  · rw [fetchAllApps_eq]
    exact requestsOf_fail_length _ good rest 0 hgood
  · simp only [updateGamesDatabase]
    rw [h1]
  · simp only [updateGamesDatabase]
    rw [h1]

/-- Witness for claim C8: one successful page with more results pending, a
failing second request, and a behaviour behind the failure that is never
requested. -/
theorem fetch_error_aborts_run_witness :
    (fetchAllApps (loadMetadata none).lastFetchTimestamp
        ([some ⟨some [⟨1⟩], some true, some 1⟩] ++ none :: [some ⟨none, none, none⟩])).1
      = none ∧
    (fetchAllApps (loadMetadata none).lastFetchTimestamp
        ([some ⟨some [⟨1⟩], some true, some 1⟩] ++ none :: [some ⟨none, none, none⟩])).2.length
      = ([some ⟨some [⟨1⟩], some true, some 1⟩] : List (Option Response)).length + 1 ∧
    (updateGamesDatabase .missing 0 none
        ([some ⟨some [⟨1⟩], some true, some 1⟩] ++ none :: [some ⟨none, none, none⟩])
        0 "").writes = [] ∧
    (updateGamesDatabase .missing 0 none
        ([some ⟨some [⟨1⟩], some true, some 1⟩] ++ none :: [some ⟨none, none, none⟩])
        0 "").exitCode = 1 :=
  fetch_error_aborts_run .missing 0 none [some ⟨some [⟨1⟩], some true, some 1⟩]
    [some ⟨none, none, none⟩] 0 "" (by decide)

/-- C9:  On a malformed catalog file, `loadGamesData` copies the bad
file to the timestamped backup path and returns the empty catalog, and the
run continues rather than aborting: it behaves exactly like a run that
started with no catalog file (same file writes, same exit code). -/
theorem corrupt_catalog_recovery (backupNow : Nat) (metaFile : Option Metadata)
    (resps : List (Option Response)) (now : Int) (nowIso : String) :
    loadGamesData .unparsable backupNow = ([], [backupFile backupNow]) ∧
    (updateGamesDatabase .unparsable backupNow metaFile resps now nowIso).backups
      = [backupFile backupNow] ∧
    (updateGamesDatabase .unparsable backupNow metaFile resps now nowIso).writes
      = (updateGamesDatabase .missing backupNow metaFile resps now nowIso).writes ∧
    (updateGamesDatabase .unparsable backupNow metaFile resps now nowIso).exitCode
      = (updateGamesDatabase .missing backupNow metaFile resps now nowIso).exitCode := by
  refine ⟨rfl, ?_, ?_, ?_⟩ <;>
  · simp only [updateGamesDatabase, loadGamesData]
    cases (fetchAllApps (loadMetadata metaFile).lastFetchTimestamp resps).1 with
    | none => rfl
    | some newApps =>
        by_cases hn : newApps.length = 0 <;> simp [hn]
